import Mathlib

/-!
Shallow embedding of the quickshell game-launcher backend
(`game-launcher/backend.py`), covering the parts the verified claims are
about: the Game record dictionaries produced by the collectors, the
filtering predicate `should_include_game`, the catalog merger
`merge_games`, the parallel image write-back `fetch_images_parallel`,
the sorter `sort_games`, the TTL `ImageCache`, the SteamGridDB cover
resolver `get_steamgriddb_cover_url`, and `convert_appid_to_long`.

Modelling conventions:
- A Python game dict has a fixed set of known keys; a possibly-missing
  key is an `Option` field (`none` = key absent).  `name` is always
  present (every collector sets it, and the merger indexes by it).
- Python truthiness of an optional string (`if game.get("appid"):`) is
  `truthyStr`: present and non-empty.
- `dict.update` is `Game.dict_update`: every key present in the incoming
  dict replaces the stored one, keys absent from the incoming dict keep
  the stored value.
- Python dicts preserve insertion order; `games_dict` is an insertion
  ordered association list `List (String × Game)`.
- Wall-clock time is an explicit `Int` parameter (`now`), a cache TTL is
  an `Int` duration; `datetime.now() - cached_time > self.ttl` becomes
  `now - e.timestamp > ttl`.
- The network is an explicit oracle argument (`NetResult` for the
  SteamGridDB query, `Nat → Option String` for the per-index results of
  the thread pool), and the resolver result carries a count of network
  requests performed, so "zero network calls" is statable.
-/

namespace GameLauncher

/-- Does the second character list start with the first? -/
def leadsWith : List Char → List Char → Bool
  | [], _ => true
  | _ :: _, [] => false
  | a :: as, b :: bs => a == b && leadsWith as bs

/-- Does the second character list contain the first as a contiguous
run? -/
def containsRun (needle : List Char) : List Char → Bool
  | [] => needle.isEmpty
  | b :: bs => leadsWith needle (b :: bs) || containsRun needle bs

/-- Python substring test `needle in hay` on strings. -/
def strIn (needle hay : String) : Bool :=
  containsRun needle.toList hay.toList

/-- ASCII lowercase of one character (`str.lower()` restricted to the
ASCII names and keyword lists the backend compares). -/
def lowerChar (c : Char) : Char :=
  if 65 ≤ c.toNat ∧ c.toNat ≤ 90 then Char.ofNat (c.toNat + 32) else c

/-- `s.lower()`. -/
def lowerStr (s : String) : String :=
  ⟨s.data.map lowerChar⟩

/-- Python truthiness of `game.get(k)` for a string-valued key:
the key is present and its value is a non-empty string. -/
def truthyStr : Option String → Bool
  | some s => s != ""
  | none => false

/-- One field of a `dict.update`: the incoming value wins when the
incoming dict has the key, otherwise the stored value is kept. -/
def ov {α : Type} (incoming stored : Option α) : Option α :=
  match incoming with
  | some v => some v
  | none => stored

/-- A collector-produced game record (`backend.py` builds these dicts in
`parse_acf_file`, `process_shortcut_entry`, `parse_desktop_file`,
`scan_heroic_library`, `load_manual_games`, `load_config_entries`).
`name` is always present; every other key may be absent. -/
structure Game where
  name : String
  exec : Option String := none
  image : Option String := none
  category : Option String := none
  favorite : Option Bool := none
  appid : Option String := none
  last_played : Option Int := none
  playtime : Option Int := none
  source : Option String := none
deriving Repr, DecidableEq

/-- `stored.update(incoming)` on two game dicts: every key present in
`incoming` overwrites, keys absent from `incoming` are kept. `name` is
always present in the incoming dict, so it always overwrites. -/
def Game.dict_update (stored incoming : Game) : Game where
  name := incoming.name
  exec := ov incoming.exec stored.exec
  image := ov incoming.image stored.image
  category := ov incoming.category stored.category
  favorite := ov incoming.favorite stored.favorite
  appid := ov incoming.appid stored.appid
  last_played := ov incoming.last_played stored.last_played
  playtime := ov incoming.playtime stored.playtime
  source := ov incoming.source stored.source

/-! ### Insertion-ordered dictionaries (Python `dict`) -/

/-- `d[k]` lookup (first — and by construction only — binding of `k`). -/
def lookupA {α : Type} (k : String) : List (String × α) → Option α
  | [] => none
  | (k', v) :: rest => if k' = k then some v else lookupA k rest

/-- `k in d`. -/
def memberA {α : Type} (k : String) (d : List (String × α)) : Bool :=
  d.any (fun p => p.1 == k)

/-- `d[k] = v`: replace in place if the key exists (Python keeps the
key's insertion position), else append at the end. -/
def assignA {α : Type} (k : String) (v : α) : List (String × α) → List (String × α)
  | [] => [(k, v)]
  | (k', v') :: rest =>
    if k' = k then (k, v) :: rest else (k', v') :: assignA k v rest

/-- `del d[k]`. -/
def eraseA {α : Type} (k : String) : List (String × α) → List (String × α)
  | [] => []
  | (k', v) :: rest => if k' = k then rest else (k', v) :: eraseA k rest

abbrev GamesDict := List (String × Game)

/-- `games_dict[k].update(g)`: mutate the stored record at key `k`. -/
def updateGameAt (k : String) (g : Game) : GamesDict → GamesDict
  | [] => []
  | (k', v) :: rest =>
    if k' = k then (k', v.dict_update g) :: rest
    else (k', v) :: updateGameAt k g rest

/-! ### Filtering (`should_include_game`, backend.py lines 733-766) -/

/-- The `[filtering]` section of the configuration. -/
structure FilterConfig where
  games_only : Bool := false
  exclude_categories : List String := []
  exclude_keywords : List String := []
deriving Repr, DecidableEq

/-- The hard-coded `exclude_patterns` list inside `should_include_game`. -/
def exclude_patterns : List String :=
  ["launcher", "manager", "runtime", "proton", "tool",
   "steamtools", "mod manager", "nexus mods", "vortex",
   "portproton", "protonup", "goverlay", "piper",
   "parsec", "moonlight", "millennium"]

/-- `should_include_game` (backend.py 733-766), translated clause by
clause.  The Python function uses early `return False`; here each early
return is a `&&` conjunct guarding the rest. -/
def should_include_game (f : FilterConfig) (g : Game) : Bool :=
  let category := lowerStr (g.category.getD "")
  let name := lowerStr g.name
  let gamesOnlyOk :=
    if f.games_only then
      (if category == "launcher" || category == "desktop" then
        category == "desktop" &&
          (strIn "steam" name || strIn "heroic" name || truthyStr g.appid)
      else true)
      && !(exclude_patterns.any fun p => strIn p name)
    else true
  let categoryOk :=
    match g.category with
    | some c => !(f.exclude_categories.contains c)
    | none => true
  let keywordOk :=
    !(f.exclude_keywords.any fun k => strIn (lowerStr k) name)
  gamesOnlyOk && categoryOk && keywordOk

/-! ### Catalog merger (`merge_games`, backend.py 768-822) -/

/-- Phase 1 step (steam games): `games_dict[g["name"]] = g` under the
filter. -/
def addAssign (f : FilterConfig) (d : GamesDict) (g : Game) : GamesDict :=
  if should_include_game f g then assignA g.name g d else d

/-- Phases 2-4 step (steam shortcuts, heroic, config entries):
update the existing record in place, else insert. -/
def addUpsert (f : FilterConfig) (d : GamesDict) (g : Game) : GamesDict :=
  if should_include_game f g then
    if memberA g.name d then updateGameAt g.name g d else assignA g.name g d
  else d

/-- Phase 5 step (desktop files): insert only if the name is new. -/
def addIfAbsent (f : FilterConfig) (d : GamesDict) (g : Game) : GamesDict :=
  if should_include_game f g then
    if memberA g.name d then d else assignA g.name g d
  else d

/-- Phase 6 step (manual games): like the upsert phases but with no
filter check (backend.py 809-813 calls no `should_include_game`). -/
def addManual (d : GamesDict) (g : Game) : GamesDict :=
  if memberA g.name d then updateGameAt g.name g d else assignA g.name g d

/-- The dictionary built by `merge_games` before `list(games_dict.values())`,
as a function of the six collector outputs (the collectors themselves
only read the filesystem). Fold order is the fixed precedence order of
the source: steam library, steam shortcuts, heroic, config entries,
desktop files (if absent only), manual games (always, unfiltered). -/
def merge_games_dict (f : FilterConfig)
    (steam shortcuts heroic configEntries desktop manual : List Game) :
    GamesDict :=
  let d := steam.foldl (addAssign f) []
  let d := shortcuts.foldl (addUpsert f) d
  let d := heroic.foldl (addUpsert f) d
  let d := configEntries.foldl (addUpsert f) d
  let d := desktop.foldl (addIfAbsent f) d
  manual.foldl addManual d

/-! ### Parallel image fetch (`fetch_images_parallel`, backend.py 274-317) -/

/-- The eligibility test of backend.py 286-287: source in the four
store names, truthy appid, and image empty or a steamstatic CDN URL. -/
def eligible_for_fetch (g : Game) : Bool :=
  ["steam", "epic", "gog", "amazon"].contains (g.source.getD "")
    && truthyStr g.appid
    && (!truthyStr g.image || strIn "steamstatic.com" (g.image.getD ""))

/-- The per-record write-back (backend.py 311-313): the resolved URL is
written only when the future produced a truthy URL; `none` models a
falsy result or a raised exception (both leave the record unchanged). -/
def fetchOne (u : Option String) (g : Game) : Game :=
  if eligible_for_fetch g then
    match u with
    | some s => if s != "" then { g with image := some s } else g
    | none => g
  else g

/-- Index the records and apply each write-back; `oracle i` is the
network outcome for the record at index `i`.  Writes are per-index, so
the completion order of the thread pool does not matter. -/
def fetchFrom (oracle : Nat → Option String) : Nat → List Game → List Game
  | _, [] => []
  | i, g :: rest => fetchOne (oracle i) g :: fetchFrom oracle (i + 1) rest

/-- `fetch_images_parallel` over the merged list. -/
def fetch_images_parallel (oracle : Nat → Option String)
    (games : List Game) : List Game :=
  fetchFrom oracle 0 games

/-- `merge_games` (backend.py 768-822): build the dictionary, take its
values, then run the parallel image fetch when SteamGridDB is enabled
with parallel requests (`fetchEnabled`). -/
def merge_games (f : FilterConfig) (fetchEnabled : Bool)
    (oracle : Nat → Option String)
    (steam shortcuts heroic configEntries desktop manual : List Game) :
    List Game :=
  let games :=
    (merge_games_dict f steam shortcuts heroic configEntries desktop manual).map
      Prod.snd
  if fetchEnabled then fetch_images_parallel oracle games else games

/-! ### Sorting (`sort_games`, backend.py 824-839) -/

/-- The `[behavior]` section: `sort_by` defaults to `"name"` at the read
site (backend.py 826), `show_favorites_first` to `true`. -/
structure SortConfig where
  sort_by : String := "name"
  show_favorites_first : Bool := true
deriving Repr, DecidableEq

/-- Insert `a` after every element `b` of the (sorted) list with
`le b a`; folding this over the input in order is a stable sort. -/
def insertSorted {α : Type} (le : α → α → Bool) (a : α) : List α → List α
  | [] => [a]
  | b :: rest => if le b a then b :: insertSorted le a rest else a :: b :: rest

/-- Stable sort by a boolean total preorder `le` (insertion sort).
Python's `list.sort` is stable, and every stable sort computes the same
function of the key order, so this models `list.sort(key=...)` exactly. -/
def stableSortBy {α : Type} (le : α → α → Bool) (l : List α) : List α :=
  l.foldl (fun acc a => insertSorted le a acc) []

/-- Python code-point comparison of strings (`<=` on `str`):
lexicographic on the character sequences. -/
def charListLe : List Char → List Char → Bool
  | [], _ => true
  | _ :: _, [] => false
  | a :: as, b :: bs =>
    if a.toNat < b.toNat then true
    else if b.toNat < a.toNat then false
    else charListLe as bs

def pyStrLe (a b : String) : Bool :=
  charListLe a.toList b.toList

/-- `sort_games` (backend.py 824-839).  Note the order of operations in
the source: the favorites sort runs first, then the `sort_by` sort runs
on its output, so the `sort_by` key is the dominant one. -/
def sort_games (cfg : SortConfig) (games : List Game) : List Game :=
  let favKey : Game → Nat := fun g => if g.favorite.getD false then 0 else 1
  let games :=
    if cfg.show_favorites_first then
      stableSortBy (fun a b => favKey a ≤ favKey b) games
    else games
  if cfg.sort_by == "recent" then
    stableSortBy (fun a b => b.last_played.getD 0 ≤ a.last_played.getD 0) games
  else if cfg.sort_by == "playtime" then
    stableSortBy (fun a b => b.playtime.getD 0 ≤ a.playtime.getD 0) games
  else if cfg.sort_by == "name" then
    stableSortBy (fun a b => pyStrLe (lowerStr a.name) (lowerStr b.name)) games
  else games

/-! ### Image cache (`ImageCache`, backend.py 24-78) -/

/-- One persisted cache record: `{'url': ..., 'timestamp': ...}`. -/
structure CacheEntry where
  url : String
  timestamp : Int
deriving Repr, DecidableEq

/-- The in-memory cache state: TTL duration plus the key → entry map
(the JSON file write in `_save_cache` is I/O outside the model). -/
structure ImageCache where
  ttl : Int
  cache : List (String × CacheEntry)
deriving Repr, DecidableEq

/-- `ImageCache.get` (backend.py 49-60): absent key gives `None`;
an entry strictly older than the TTL is deleted and gives `None`;
otherwise the stored url is returned.  The updated cache is returned
alongside because the expired branch mutates it. -/
def ImageCache.get (c : ImageCache) (now : Int) (key : String) :
    Option String × ImageCache :=
  match lookupA key c.cache with
  | none => (none, c)
  | some e =>
    if now - e.timestamp > c.ttl then
      (none, { c with cache := eraseA key c.cache })
    else (some e.url, c)

/-- `ImageCache.set` (backend.py 62-67): store the url with the current
time as its timestamp. -/
def ImageCache.set (c : ImageCache) (now : Int) (key url : String) :
    ImageCache :=
  { c with cache := assignA key ⟨url, now⟩ c.cache }

/-! ### SteamGridDB cover resolver (`get_steamgriddb_cover_url`,
backend.py 192-272) -/

/-- The configuration fields the resolver's control flow reads. -/
structure SgdbConfig where
  enabled : Bool := false
  api_key : String := ""
  image_type : String := "grid"
deriving Repr, DecidableEq

/-- Outcome of the one HTTPS request the resolver may make:
a successful envelope (`success` flag set, with the url-or-thumb of each
returned image descriptor), an HTTP 404, or any other failure
(timeout, other HTTP error, malformed body, falsy `success` flag). -/
inductive NetResult where
  | success (urls : List String)
  | notFound
  | otherError
deriving Repr, DecidableEq

/-- What a resolver call produced: its return value, the cache state it
left behind, and how many network requests it performed. -/
structure ResolveOutcome where
  result : Option String
  cache : ImageCache
  network_calls : Nat
deriving Repr, DecidableEq

/-- `get_steamgriddb_cover_url` (backend.py 192-272).  Faithful points:
the cache check is `if cached_url:` — Python truthiness — so a cached
empty string does NOT take the early-return branch and the code falls
through to the network request; on 404 an empty string is cached; on
any other failure the `except` clause leaves the cache alone; the final
`return None` is reached in every non-success path. -/
def get_steamgriddb_cover_url (cfg : SgdbConfig) (c : ImageCache)
    (now : Int) (app_id platform : String) (net : NetResult) :
    ResolveOutcome :=
  if !cfg.enabled then ⟨none, c, 0⟩
  else if cfg.api_key == "" then ⟨none, c, 0⟩
  else
    let key := platform ++ ":" ++ app_id ++ ":" ++ cfg.image_type
    let r := c.get now key
    let cached := r.1
    let c1 := r.2
    if truthyStr cached then ⟨cached, c1, 0⟩
    else
      match net with
      | .success urls =>
        match urls.head? with
        | some u => ⟨some u, c1.set now key u, 1⟩
        | none => ⟨none, c1, 1⟩
      | .notFound => ⟨none, c1.set now key "", 1⟩
      | .otherError => ⟨none, c1, 1⟩

/-! ### AppID conversion (`convert_appid_to_long`, backend.py 427-433) -/

/-- `struct.Struct('<i').pack(appid)`: the four little-endian bytes of
the appid's 32-bit two's-complement representation, i.e. of
`appid mod 2^32`. -/
def int32_pack_le (a : Int) : List Nat :=
  let n : Nat := (a % (2 : Int) ^ 32).toNat
  [n % 256, n / 256 % 256, n / 256 / 256 % 256, n / 256 / 256 / 256 % 256]

/-- `int(hexstring, 16)` of a byte string's hex: big-endian byte value. -/
def bytes_to_nat_be (bs : List Nat) : Nat :=
  bs.foldl (fun acc b => acc * 256 + b) 0

/-- `convert_appid_to_long` (backend.py 427-433): pack little-endian,
hexlify (identity on bytes), reverse the bytes, read back as a
big-endian integer, shift left 32 and OR with 0x02000000. -/
def convert_appid_to_long (appid : Int) : Nat :=
  let n := bytes_to_nat_be (int32_pack_le appid).reverse
  (n <<< 32) ||| 0x02000000

/-! ### Derived specification predicates -/

/-- `r` carries every field that `m` sets: the dominance relation a
merged record bears to the highest-precedence source that produced it. -/
def Game.Absorbs (m r : Game) : Prop :=
  r.name = m.name ∧
  (∀ v, m.exec = some v → r.exec = some v) ∧
  (∀ v, m.image = some v → r.image = some v) ∧
  (∀ v, m.category = some v → r.category = some v) ∧
  (∀ v, m.favorite = some v → r.favorite = some v) ∧
  (∀ v, m.appid = some v → r.appid = some v) ∧
  (∀ v, m.last_played = some v → r.last_played = some v) ∧
  (∀ v, m.playtime = some v → r.playtime = some v) ∧
  (∀ v, m.source = some v → r.source = some v)

/-- The filter contract as the amended claim states it: an AND of three
independently configurable rules — (a) games-only: a record whose
lowercased category is `launcher` or `desktop` is dropped unless the
category is exactly `desktop` and the record carries a truthy appid or
its lowercased name contains `steam` or `heroic` (a `launcher` record
never escapes), and any record whose lowercased name contains one of the
hard-coded infrastructure-tool keywords is dropped; (b) the exact
category exclusion list; (c) the case-insensitive name keyword exclusion
list. -/
def include_spec (f : FilterConfig) (g : Game) : Bool :=
  let name := lowerStr g.name
  let cat := lowerStr (g.category.getD "")
  let dropCandidate := cat == "launcher" || cat == "desktop"
  let desktopEscape :=
    cat == "desktop" &&
      (strIn "steam" name || strIn "heroic" name || truthyStr g.appid)
  let gamesOnlyRule :=
    !f.games_only ||
      ((!dropCandidate || desktopEscape)
        && !(exclude_patterns.any fun p => strIn p name))
  let categoryRule :=
    match g.category with
    | some c => !(f.exclude_categories.contains c)
    | none => true
  let keywordRule :=
    !(f.exclude_keywords.any fun k => strIn (lowerStr k) name)
  gamesOnlyRule && categoryRule && keywordRule

/-- Keys of an association dictionary. -/
def keysOf {α : Type} (d : List (String × α)) : List String :=
  d.map Prod.fst

/-- Every stored record's `name` field equals the key it is stored
under. -/
def NamedRight (d : GamesDict) : Prop :=
  ∀ p ∈ d, p.2.name = p.1

/-- The games dictionary invariant: unique keys, and every record named
after its key. -/
def WFDict (d : GamesDict) : Prop :=
  (keysOf d).Nodup ∧ NamedRight d

/-! ### Concrete records used in witness statements -/

/-- A steam-collector record with a resolved image. -/
def gOldX : Game :=
  { name := "X", image := some "a.jpg", favorite := some false,
    category := some "steam", source := some "steam" }

/-- A later-phase record of the same name whose image key is present
but empty. -/
def gNewX : Game :=
  { name := "X", image := some "" }

/-- A user-declared manual record (`load_manual_games` always stamps
`source = "manual"`). -/
def gManualX : Game :=
  { name := "X", image := some "m.png", favorite := some true,
    source := some "manual" }

/-- An enabled SteamGridDB configuration with an API key. -/
def sgdbCfgW : SgdbConfig :=
  { enabled := true, api_key := "key", image_type := "grid" }

/-- An empty image cache with a one-hour (3600 second) TTL. -/
def emptyCacheW : ImageCache :=
  ⟨3600, []⟩

/-! ## Lemmas about the dictionary operations -/

theorem ov_some {α : Type} (v : α) (s : Option α) : ov (some v) s = some v := rfl

theorem ov_none {α : Type} (s : Option α) : ov none s = s := rfl

theorem lookupA_assignA_self {α : Type} (k : String) (v : α)
    (d : List (String × α)) : lookupA k (assignA k v d) = some v := by
  induction d with
  | nil => simp [assignA, lookupA]
  | cons p rest ih =>
    obtain ⟨k1, v1⟩ := p
    by_cases h : k1 = k
    · simp [assignA, h, lookupA]
    · simp [assignA, h, lookupA, ih]

theorem lookupA_assignA_ne {α : Type} {k q : String} (h : q ≠ k) (v : α)
    (d : List (String × α)) : lookupA k (assignA q v d) = lookupA k d := by
  induction d with
  | nil => simp [assignA, lookupA, h]
  | cons p rest ih =>
    obtain ⟨k1, v1⟩ := p
    by_cases h1 : k1 = q
    · subst h1; simp [assignA, lookupA, h, ih]
    · simp [assignA, h1, lookupA, ih]

theorem lookupA_updateGameAt_self (k : String) (g : Game) (d : GamesDict) :
    lookupA k (updateGameAt k g d) =
      (lookupA k d).map (fun old => old.dict_update g) := by
  induction d with
  | nil => simp [updateGameAt, lookupA]
  | cons p rest ih =>
    obtain ⟨k1, v1⟩ := p
    by_cases h : k1 = k
    · simp [updateGameAt, h, lookupA]
    · simp [updateGameAt, h, lookupA, ih]

theorem lookupA_updateGameAt_ne {k q : String} (h : q ≠ k) (g : Game)
    (d : GamesDict) : lookupA k (updateGameAt q g d) = lookupA k d := by
  induction d with
  | nil => simp [updateGameAt, lookupA]
  | cons p rest ih =>
    obtain ⟨k1, v1⟩ := p
    by_cases h1 : k1 = q
    · subst h1; simp [updateGameAt, lookupA, h, ih]
    · simp [updateGameAt, h1, lookupA, ih]

theorem memberA_eq_isSome {α : Type} (k : String) (d : List (String × α)) :
    memberA k d = (lookupA k d).isSome := by
  induction d with
  | nil => rfl
  | cons p rest ih =>
    obtain ⟨k1, v1⟩ := p
    by_cases h : k1 = k
    · simp [memberA, lookupA, h]
    · have hb : (k1 == k) = false := by simp [h]
      simp [memberA, lookupA, h, hb, List.any_cons]
      simpa [memberA] using ih

theorem lookupA_eq_none_of_not_mem_keys {α : Type} {k : String}
    {d : List (String × α)} (h : k ∉ keysOf d) : lookupA k d = none := by
  induction d with
  | nil => rfl
  | cons p rest ih =>
    obtain ⟨k1, v1⟩ := p
    simp [keysOf] at h
    have h1 : k1 ≠ k := fun hh => h.1 hh.symm
    simp [lookupA, h1, ih (by simpa [keysOf] using h.2)]

theorem lookupA_eraseA_self {α : Type} {k : String} {d : List (String × α)}
    (h : (keysOf d).Nodup) : lookupA k (eraseA k d) = none := by
  induction d with
  | nil => rfl
  | cons p rest ih =>
    obtain ⟨k1, v1⟩ := p
    simp [keysOf] at h
    by_cases h1 : k1 = k
    · subst h1
      simp [eraseA]
      exact lookupA_eq_none_of_not_mem_keys (by simpa [keysOf] using h.1)
    · simp [eraseA, h1, lookupA, ih h.2]

theorem mem_values_of_lookupA {α : Type} {k : String} {v : α}
    {d : List (String × α)} (h : lookupA k d = some v) :
    v ∈ d.map Prod.snd := by
  induction d with
  | nil => simp [lookupA] at h
  | cons p rest ih =>
    obtain ⟨k1, v1⟩ := p
    by_cases h1 : k1 = k
    · simp [lookupA, h1] at h
      simp [h]
    · simp [lookupA, h1] at h
      simp [ih h]

/-! ## Lemmas about `dict.update` and the manual merge phase -/

theorem absorbs_refl (g : Game) : Game.Absorbs g g :=
  ⟨rfl, fun _ h => h, fun _ h => h, fun _ h => h, fun _ h => h,
   fun _ h => h, fun _ h => h, fun _ h => h, fun _ h => h⟩

theorem absorbs_dict_update (old g : Game) :
    Game.Absorbs g (old.dict_update g) := by
  refine ⟨rfl, ?_, ?_, ?_, ?_, ?_, ?_, ?_, ?_⟩ <;>
    intro v hv <;> simp [Game.dict_update, ov, hv]

theorem lookupA_addManual_self (d : GamesDict) (g : Game) :
    ∃ r, lookupA g.name (addManual d g) = some r ∧ Game.Absorbs g r := by
  unfold addManual
  cases hm : memberA g.name d
  · simp [lookupA_assignA_self]
    exact absorbs_refl g
  · rw [memberA_eq_isSome] at hm
    obtain ⟨old, hold⟩ := Option.isSome_iff_exists.mp hm
    refine ⟨old.dict_update g, ?_, absorbs_dict_update old g⟩
    simp [lookupA_updateGameAt_self, hold]

theorem lookupA_addManual_ne {k : String} (d : GamesDict) {g : Game}
    (h : g.name ≠ k) : lookupA k (addManual d g) = lookupA k d := by
  unfold addManual
  cases memberA g.name d <;>
    simp [lookupA_updateGameAt_ne h, lookupA_assignA_ne h]

theorem lookupA_foldl_addManual {k : String} (l : List Game) (d : GamesDict)
    (h : ∀ g ∈ l, g.name ≠ k) :
    lookupA k (l.foldl addManual d) = lookupA k d := by
  induction l generalizing d with
  | nil => rfl
  | cons g rest ih =>
    rw [List.foldl_cons, ih _ (fun x hx => h x (List.mem_cons_of_mem g hx)),
      lookupA_addManual_ne d (h g (List.mem_cons_self g rest))]

theorem lookupA_foldl_addManual_split (pre post : List Game) (d : GamesDict)
    (m : Game) (hpost : ∀ g ∈ post, g.name ≠ m.name) :
    ∃ r, lookupA m.name ((pre ++ m :: post).foldl addManual d) = some r ∧
      Game.Absorbs m r := by
  rw [List.foldl_append, List.foldl_cons]
  obtain ⟨r, hr, habs⟩ := lookupA_addManual_self (pre.foldl addManual d) m
  exact ⟨r, by rw [lookupA_foldl_addManual post _ hpost]; exact hr, habs⟩

/-! ## Lemmas about the image write-back stage -/

theorem fetchOne_name (u : Option String) (g : Game) :
    (fetchOne u g).name = g.name := by
  unfold fetchOne
  cases eligible_for_fetch g
  · rfl
  · rcases u with _ | s
    · rfl
    · simp only [if_true]
      split <;> rfl

theorem fetchOne_of_not_eligible {g : Game}
    (h : eligible_for_fetch g = false) (u : Option String) :
    fetchOne u g = g := by
  simp [fetchOne, h]

theorem mem_fetchFrom {r : Game} {l : List Game} (hr : r ∈ l)
    (h : eligible_for_fetch r = false) (oracle : Nat → Option String)
    (i : Nat) : r ∈ fetchFrom oracle i l := by
  induction l generalizing i with
  | nil => cases hr
  | cons g rest ih =>
    rcases List.mem_cons.mp hr with rfl | hr2
    · rw [fetchFrom, fetchOne_of_not_eligible h]
      exact List.mem_cons_self r _
    · exact List.mem_cons_of_mem _ (ih hr2 (i + 1))

theorem names_fetchFrom (oracle : Nat → Option String) (i : Nat)
    (l : List Game) :
    (fetchFrom oracle i l).map Game.name = l.map Game.name := by
  induction l generalizing i with
  | nil => rfl
  | cons g rest ih => simp [fetchFrom, fetchOne_name, ih]

theorem eligible_manual {g : Game} (h : g.source = some "manual") :
    eligible_for_fetch g = false := by
  have hc : (["steam", "epic", "gog", "amazon"].contains "manual") = false := by
    decide
  simp [eligible_for_fetch, h, hc]

/-! ## The dictionary well-formedness invariant of the merger -/

theorem mem_keys_assignA {α : Type} {a k : String} (v : α)
    (d : List (String × α)) :
    a ∈ keysOf (assignA k v d) ↔ a ∈ keysOf d ∨ a = k := by
  induction d with
  | nil => simp [assignA, keysOf]
  | cons p rest ih =>
    obtain ⟨k1, v1⟩ := p
    by_cases h : k1 = k
    · subst h
      simp [assignA, keysOf]
      tauto
    · simp [assignA, h, keysOf] at ih ⊢
      tauto

theorem nodup_keys_assignA {α : Type} (k : String) (v : α)
    {d : List (String × α)} (h : (keysOf d).Nodup) :
    (keysOf (assignA k v d)).Nodup := by
  induction d with
  | nil => simp [assignA, keysOf]
  | cons p rest ih =>
    obtain ⟨k1, v1⟩ := p
    rw [show keysOf ((k1, v1) :: rest) = k1 :: keysOf rest from rfl,
      List.nodup_cons] at h
    by_cases hk : k1 = k
    · subst hk
      rw [show keysOf (assignA k1 v ((k1, v1) :: rest)) = k1 :: keysOf rest
          from by simp [assignA, keysOf], List.nodup_cons]
      exact h
    · rw [show keysOf (assignA k v ((k1, v1) :: rest)) =
            k1 :: keysOf (assignA k v rest)
          from by simp [assignA, hk, keysOf], List.nodup_cons]
      refine ⟨?_, ih h.2⟩
      intro hmem
      rcases (mem_keys_assignA v rest).mp hmem with h1 | h1
      · exact h.1 h1
      · exact hk h1

theorem keysOf_updateGameAt (k : String) (g : Game) (d : GamesDict) :
    keysOf (updateGameAt k g d) = keysOf d := by
  induction d with
  | nil => rfl
  | cons p rest ih =>
    obtain ⟨k1, v1⟩ := p
    by_cases h : k1 = k
    · simp [updateGameAt, h, keysOf]
    · simp [updateGameAt, h, keysOf]
      simpa [keysOf] using ih

theorem mem_assignA {α : Type} {p : String × α} {k : String} {v : α}
    {d : List (String × α)} (hp : p ∈ assignA k v d) :
    p ∈ d ∨ p = (k, v) := by
  induction d with
  | nil => simpa [assignA] using hp
  | cons q rest ih =>
    obtain ⟨k1, v1⟩ := q
    by_cases h : k1 = k
    · subst h
      simp [assignA] at hp
      tauto
    · simp [assignA, h] at hp
      rcases hp with h1 | h1
      · simp [h1]
      · rcases ih h1 with h2 | h2
        · simp [h2]
        · tauto

theorem mem_updateGameAt {p : String × Game} {k : String} {g : Game}
    {d : GamesDict} (hp : p ∈ updateGameAt k g d) :
    p ∈ d ∨ ∃ q ∈ d, q.1 = k ∧ p = (q.1, q.2.dict_update g) := by
  induction d with
  | nil => simp [updateGameAt] at hp
  | cons q rest ih =>
    obtain ⟨k1, v1⟩ := q
    by_cases h : k1 = k
    · subst h
      simp [updateGameAt] at hp
      rcases hp with h1 | h1
      · exact Or.inr ⟨(k1, v1), by simp, rfl, by simp [h1]⟩
      · exact Or.inl (List.mem_cons_of_mem _ h1)
    · simp [updateGameAt, h] at hp
      rcases hp with h1 | h1
      · simp [h1]
      · rcases ih h1 with h2 | h2
        · exact Or.inl (List.mem_cons_of_mem _ h2)
        · obtain ⟨q2, hq2, hq2k, hq2p⟩ := h2
          exact Or.inr ⟨q2, List.mem_cons_of_mem _ hq2, hq2k, hq2p⟩

theorem namedRight_assignA {d : GamesDict} (g : Game) (h : NamedRight d) :
    NamedRight (assignA g.name g d) := by
  intro p hp
  rcases mem_assignA hp with h1 | h1
  · exact h p h1
  · simp [h1]

theorem namedRight_updateGameAt {d : GamesDict} {k : String} (g : Game)
    (hk : g.name = k) (h : NamedRight d) :
    NamedRight (updateGameAt k g d) := by
  intro p hp
  rcases mem_updateGameAt hp with h1 | h1
  · exact h p h1
  · obtain ⟨q, hq, hqk, hqp⟩ := h1
    subst hqp
    simp [Game.dict_update, hk, hqk]

theorem wf_assignA_self {d : GamesDict} (g : Game) (h : WFDict d) :
    WFDict (assignA g.name g d) :=
  ⟨nodup_keys_assignA g.name g h.1, namedRight_assignA g h.2⟩

theorem wf_updateGameAt_self {d : GamesDict} (g : Game) (h : WFDict d) :
    WFDict (updateGameAt g.name g d) :=
  ⟨by rw [keysOf_updateGameAt]; exact h.1, namedRight_updateGameAt g rfl h.2⟩

theorem wf_addAssign (f : FilterConfig) {d : GamesDict} (h : WFDict d)
    (g : Game) : WFDict (addAssign f d g) := by
  unfold addAssign
  split
  · exact wf_assignA_self g h
  · exact h

theorem wf_addUpsert (f : FilterConfig) {d : GamesDict} (h : WFDict d)
    (g : Game) : WFDict (addUpsert f d g) := by
  unfold addUpsert
  split
  · split
    · exact wf_updateGameAt_self g h
    · exact wf_assignA_self g h
  · exact h

theorem wf_addIfAbsent (f : FilterConfig) {d : GamesDict} (h : WFDict d)
    (g : Game) : WFDict (addIfAbsent f d g) := by
  unfold addIfAbsent
  split
  · split
    · exact h
    · exact wf_assignA_self g h
  · exact h

theorem wf_addManual {d : GamesDict} (h : WFDict d) (g : Game) :
    WFDict (addManual d g) := by
  unfold addManual
  split
  · exact wf_updateGameAt_self g h
  · exact wf_assignA_self g h

theorem wf_foldl (step : GamesDict → Game → GamesDict)
    (hstep : ∀ d g, WFDict d → WFDict (step d g)) (l : List Game)
    {d : GamesDict} (h : WFDict d) : WFDict (l.foldl step d) := by
  induction l generalizing d with
  | nil => exact h
  | cons g rest ih => exact ih (hstep d g h)

theorem wf_merge_games_dict (f : FilterConfig)
    (steam shortcuts heroic configEntries desktop manual : List Game) :
    WFDict (merge_games_dict f steam shortcuts heroic configEntries desktop
      manual) := by
  unfold merge_games_dict
  exact wf_foldl _ (fun d g h => wf_addManual h g) manual
    (wf_foldl _ (fun d g h => wf_addIfAbsent f h g) desktop
      (wf_foldl _ (fun d g h => wf_addUpsert f h g) configEntries
        (wf_foldl _ (fun d g h => wf_addUpsert f h g) heroic
          (wf_foldl _ (fun d g h => wf_addUpsert f h g) shortcuts
            (wf_foldl _ (fun d g h => wf_addAssign f h g) steam
              ⟨List.nodup_nil, fun p hp => absurd hp (List.not_mem_nil p)⟩)))))

/-! ## The byte-level appid computation -/

theorem bytes_int32_roundtrip (a : Int) :
    bytes_to_nat_be (int32_pack_le a).reverse =
      (a % (2 : Int) ^ 32).toNat := by
  have h1 : 0 ≤ a % (2 : Int) ^ 32 := Int.emod_nonneg a (by norm_num)
  have h2 : a % (2 : Int) ^ 32 < 2 ^ 32 := Int.emod_lt_of_pos a (by norm_num)
  have h3 : (a % (2 : Int) ^ 32).toNat < 2 ^ 32 := by omega
  simp only [int32_pack_le, bytes_to_nat_be, List.reverse_cons,
    List.reverse_nil, List.nil_append, List.cons_append, List.foldl_cons,
    List.foldl_nil]
  generalize (a % (2 : Int) ^ 32).toNat = n at h3
  omega

/-! ## Claim theorems -/

/-- Claim C1, counterexample: the claim says an incoming record with
`image:""` leaves a prior `image:"a.jpg"` intact.  It does not: the
merger's `dict.update` copies every key present in the incoming dict,
empty or not, so after merging a steam record carrying `image:"a.jpg"`
with a later-phase record of the same name carrying `image:""`, the
catalog's only record has `image:""`. -/
theorem empty_image_field_overlays_nonempty :
    (merge_games {} false (fun _ => none)
        [{ name := "X", image := some "a.jpg", favorite := some false,
           category := some "steam", source := some "steam" }]
        [{ name := "X", image := some "" }] [] [] [] []).map Game.image =
      [some ""] := by decide

/-- Claim C1, amended: in every merge phase after the first, when the
incoming record's name already has a stored record, EVERY field the
incoming record sets — including a field explicitly set to the empty
string — replaces the stored record's field, and only fields the
incoming record leaves unset keep the prior value. -/
theorem merge_overlay_replaces_every_set_field (f : FilterConfig)
    (d : GamesDict) (g old : Game)
    (hinc : should_include_game f g = true)
    (hold : lookupA g.name d = some old) :
    lookupA g.name (addUpsert f d g) = some (old.dict_update g) ∧
    (∀ v, g.image = some v → (old.dict_update g).image = some v) ∧
    (g.image = none → (old.dict_update g).image = old.image) ∧
    (∀ v, g.exec = some v → (old.dict_update g).exec = some v) ∧
    (g.exec = none → (old.dict_update g).exec = old.exec) ∧
    (∀ v, g.category = some v → (old.dict_update g).category = some v) ∧
    (g.category = none → (old.dict_update g).category = old.category) ∧
    (∀ v, g.favorite = some v → (old.dict_update g).favorite = some v) ∧
    (g.favorite = none → (old.dict_update g).favorite = old.favorite) ∧
    (∀ v, g.appid = some v → (old.dict_update g).appid = some v) ∧
    (g.appid = none → (old.dict_update g).appid = old.appid) ∧
    (∀ v, g.last_played = some v → (old.dict_update g).last_played = some v) ∧
    (g.last_played = none → (old.dict_update g).last_played = old.last_played) ∧
    (∀ v, g.source = some v → (old.dict_update g).source = some v) ∧
    (g.source = none → (old.dict_update g).source = old.source) := by
  have hmem : memberA g.name d = true := by
    rw [memberA_eq_isSome, hold]; rfl
  refine ⟨?_, ?_⟩
  · unfold addUpsert
    rw [hinc, if_pos rfl, hmem, if_pos rfl, lookupA_updateGameAt_self, hold]
    rfl
  · refine ⟨?_, ?_, ?_, ?_, ?_, ?_, ?_, ?_, ?_, ?_, ?_, ?_, ?_, ?_⟩ <;>
      first
        | (intro v hv; simp [Game.dict_update, ov, hv])
        | (intro hv; simp [Game.dict_update, ov, hv])

/-- Claim C1 amended, witness: a concrete merge step where the incoming
record sets `image:""` and that empty value replaces `"a.jpg"`, while
the unset `favorite` keeps its prior value. -/
theorem merge_overlay_replaces_every_set_field_witness :
    lookupA "X" (addUpsert {} [("X", gOldX)] gNewX) =
      some (gOldX.dict_update gNewX) ∧
    (gOldX.dict_update gNewX).image = some "" ∧
    (gOldX.dict_update gNewX).favorite = some false := by
  have h := merge_overlay_replaces_every_set_field {} [("X", gOldX)]
    gNewX gOldX (by decide) (by decide)
  exact ⟨h.1, h.2.1 "" rfl, h.2.2.2.2.2.2.2.2.1 rfl⟩

/-- Claim C2: the negative-cache claim is right about the intent (the
code caches `""` on 404 "to avoid retrying" and comments that an empty
cached string "means no image found"), but the cache check is
`if cached_url:`, which is false for the empty string, so a later
resolution for the same key inside the TTL window falls through and
performs one network request instead of zero.  Concretely: with the
service enabled, a key configured, and a fresh negative entry for
`steam:620:grid`, resolving appid 620 again performs 1 network call. -/
theorem cached_negative_result_still_queries_network :
    (get_steamgriddb_cover_url
        { enabled := true, api_key := "key", image_type := "grid" }
        ⟨3600, [("steam:620:grid", ⟨"", 0⟩)]⟩ 10 "620" "steam"
        .notFound).network_calls = 1 ∧
    (get_steamgriddb_cover_url
        { enabled := true, api_key := "key", image_type := "grid" }
        ⟨3600, [("steam:620:grid", ⟨"", 0⟩)]⟩ 10 "620" "steam"
        .notFound).result = none := by decide

/-- Claim C3: the two-key-ordering claim fails because `sort_games`
runs the favorites sort FIRST and the secondary-key sort second, so
the secondary key dominates.  At the failing input — a favorite
"Zebra" and a non-favorite "Apple" under `sort_by="name"`,
`show_favorites_first=true` — the code puts the non-favorite "Apple"
before the favorite "Zebra", contradicting "every favorite precedes
every non-favorite". -/
theorem favorites_first_overridden_by_secondary_sort :
    (sort_games { sort_by := "name", show_favorites_first := true }
        [{ name := "Zebra", favorite := some true },
         { name := "Apple", favorite := some false }]).map
      (fun g => (g.name, g.favorite.getD false)) =
      [("Apple", false), ("Zebra", true)] := by decide

/-- Claim C4, counterexample: a record with category "launcher" that
carries an appid (and whose name matches no deny-list keyword and no
other exclusion rule) is still dropped under games-only mode, because
the escape clause in `should_include_game` requires
`category == "desktop"`. -/
theorem launcher_record_with_appid_dropped :
    should_include_game { games_only := true }
      { name := "abc", category := some "launcher", appid := some "123" } =
      false := by decide

/-- Claim C4, amended: under games-only mode only a category-"desktop"
record escapes the category drop (via a truthy appid or a name
containing "steam"/"heroic"); a category-"launcher" record is always
dropped; the lowercased-name deny list also applies under this mode;
and the whole filter is the AND of the games-only rule, the exact
category exclusion list and the keyword exclusion list.  Stated as:
`should_include_game` equals the rule-by-rule specification predicate
`include_spec`. -/
theorem should_include_game_eq_include_spec (f : FilterConfig) (g : Game) :
    should_include_game f g = include_spec f g := by
  unfold should_include_game include_spec
  cases f.games_only
  · simp
  · cases hdc : (lowerStr (g.category.getD "") == "launcher" ||
      lowerStr (g.category.getD "") == "desktop") <;> simp [hdc]

/-- Claim C5: `ImageCache.get` returns absent (`None`) both for a key
never stored and for an entry whose age strictly exceeds the TTL; in
the expired case the entry is removed by that read; an entry whose age
is at most the TTL is returned as present with its stored url. -/
theorem imageCache_get_ttl_spec (c : ImageCache) (now : Int) (k : String)
    (hnd : (keysOf c.cache).Nodup) :
    (lookupA k c.cache = none → c.get now k = (none, c)) ∧
    (∀ e, lookupA k c.cache = some e → now - e.timestamp > c.ttl →
      (c.get now k).1 = none ∧ lookupA k (c.get now k).2.cache = none) ∧
    (∀ e, lookupA k c.cache = some e → now - e.timestamp ≤ c.ttl →
      c.get now k = (some e.url, c)) := by
  refine ⟨?_, ?_, ?_⟩
  · intro h
    simp [ImageCache.get, h]
  · intro e he hexp
    have hg : c.get now k = (none, { c with cache := eraseA k c.cache }) := by
      simp [ImageCache.get, he, hexp]
    rw [hg]
    exact ⟨rfl, lookupA_eraseA_self hnd⟩
  · intro e he hfresh
    simp [ImageCache.get, he, not_lt.mpr hfresh]

/-- Claim C5, witness: with TTL 60, an entry stored at time 0 is
present when read at 59 and absent when read at 61; a never-stored key
reads as absent. -/
theorem imageCache_get_ttl_spec_witness :
    ((⟨60, [("k", ⟨"u", 0⟩)]⟩ : ImageCache).get 59 "k") =
      (some "u", (⟨60, [("k", ⟨"u", 0⟩)]⟩ : ImageCache)) ∧
    (((⟨60, [("k", ⟨"u", 0⟩)]⟩ : ImageCache).get 61 "k").1 = none) ∧
    ((⟨60, []⟩ : ImageCache).get 59 "z") = (none, (⟨60, []⟩ : ImageCache)) := by
  refine ⟨?_, ?_, ?_⟩
  · exact (imageCache_get_ttl_spec ⟨60, [("k", ⟨"u", 0⟩)]⟩ 59 "k"
      (by decide)).2.2 ⟨"u", 0⟩ rfl (by decide)
  · exact ((imageCache_get_ttl_spec ⟨60, [("k", ⟨"u", 0⟩)]⟩ 61 "k"
      (by decide)).2.1 ⟨"u", 0⟩ rfl (by decide)).1
  · exact (imageCache_get_ttl_spec ⟨60, []⟩ 59 "z" (by decide)).1 rfl

/-- Claim C6: a user-declared manual record, merged in the last phase,
wins on every field it sets: whatever the other five collectors
produced, the final catalog contains a record that carries the manual
record's value for each field the manual record sets.  (The manual
record's `source` is always `"manual"` — `load_manual_games` stamps it
— which also makes the record ineligible for the later image
write-back, so the dominance survives `fetch_images_parallel`.) -/
theorem manual_entry_fields_dominate (f : FilterConfig) (fe : Bool)
    (oracle : Nat → Option String)
    (steam shortcuts heroic configEntries desktop pre post : List Game)
    (m : Game) (hsrc : m.source = some "manual")
    (hpost : ∀ g ∈ post, g.name ≠ m.name) :
    ∃ r ∈ merge_games f fe oracle steam shortcuts heroic configEntries
        desktop (pre ++ m :: post), Game.Absorbs m r := by
  obtain ⟨r, hr, habs⟩ := lookupA_foldl_addManual_split pre post
    (desktop.foldl (addIfAbsent f)
      (configEntries.foldl (addUpsert f)
        (heroic.foldl (addUpsert f)
          (shortcuts.foldl (addUpsert f)
            (steam.foldl (addAssign f) []))))) m hpost
  have hr2 : lookupA m.name (merge_games_dict f steam shortcuts heroic
      configEntries desktop (pre ++ m :: post)) = some r := hr
  have hmem : r ∈ (merge_games_dict f steam shortcuts heroic configEntries
      desktop (pre ++ m :: post)).map Prod.snd := mem_values_of_lookupA hr2
  have hsrcr : r.source = some "manual" :=
    habs.2.2.2.2.2.2.2.2 "manual" hsrc
  have helig : eligible_for_fetch r = false := eligible_manual hsrcr
  cases fe
  · exact ⟨r, by simpa [merge_games] using hmem, habs⟩
  · refine ⟨r, ?_, habs⟩
    simpa [merge_games, fetch_images_parallel] using
      mem_fetchFrom hmem helig oracle 0

/-- Claim C6, witness: a manual record for "X" merged over a steam
record for "X", with the image fetch stage enabled and a network
oracle that would return a different url; the final catalog contains a
record absorbing every field the manual record sets. -/
theorem manual_entry_fields_dominate_witness :
    ∃ r ∈ merge_games {} true (fun _ => some "net.jpg") [gOldX] [] [] [] []
        ([] ++ gManualX :: []), Game.Absorbs gManualX r :=
  manual_entry_fields_dominate {} true (fun _ => some "net.jpg")
    [gOldX] [] [] [] [] [] [] gManualX rfl (by simp)

/-- Claim C7: with the integration enabled, a key configured and no
cached entry for the key, an HTTP 404 from the remote service stores
an empty negative entry under the cache key and returns `None` to the
caller (falling through to the caller's fallback), while any other
error returns `None` with the cache left exactly unchanged; in both
cases exactly the one network request was made and no exception
escapes (the model is a total function). -/
theorem resolver_notFound_caches_negative_other_errors_no_write
    (cfg : SgdbConfig) (c : ImageCache) (now : Int)
    (app_id platform : String) (hen : cfg.enabled = true)
    (hkey : cfg.api_key ≠ "")
    (hmiss : lookupA (platform ++ ":" ++ app_id ++ ":" ++ cfg.image_type)
      c.cache = none) :
    get_steamgriddb_cover_url cfg c now app_id platform .notFound =
      ⟨none,
        c.set now (platform ++ ":" ++ app_id ++ ":" ++ cfg.image_type) "",
        1⟩ ∧
    get_steamgriddb_cover_url cfg c now app_id platform .otherError =
      ⟨none, c, 1⟩ := by
  have hkb : (cfg.api_key == "") = false := by
    simpa using hkey
  have hget : c.get now (platform ++ ":" ++ app_id ++ ":" ++ cfg.image_type)
      = (none, c) := by
    simp [ImageCache.get, hmiss]
  constructor <;>
    simp [get_steamgriddb_cover_url, hen, hkb, hget, truthyStr]

/-- Claim C7, witness: concrete resolver calls on an empty cache — 404
stores the negative entry and returns `None` with one network call;
another error leaves the cache unchanged, also returning `None`. -/
theorem resolver_error_paths_witness :
    get_steamgriddb_cover_url sgdbCfgW emptyCacheW 5 "620" "steam"
        .notFound =
      ⟨none,
        emptyCacheW.set 5
          ("steam" ++ ":" ++ "620" ++ ":" ++ sgdbCfgW.image_type) "", 1⟩ ∧
    get_steamgriddb_cover_url sgdbCfgW emptyCacheW 5 "620" "steam"
        .otherError =
      ⟨none, emptyCacheW, 1⟩ :=
  resolver_notFound_caches_negative_other_errors_no_write sgdbCfgW
    emptyCacheW 5 "620" "steam" rfl (by decide) rfl

/-- Claim C8: the final catalog has pairwise distinct names — the
merged dictionary's keys are unique and every stored record's `name`
equals its key, the image write-back preserves names, so the list of
names of `merge_games` output is `Nodup`. -/
theorem merged_catalog_names_unique (f : FilterConfig) (fe : Bool)
    (oracle : Nat → Option String)
    (steam shortcuts heroic configEntries desktop manual : List Game) :
    ((merge_games f fe oracle steam shortcuts heroic configEntries desktop
        manual).map Game.name).Nodup ∧
    ∀ p ∈ merge_games_dict f steam shortcuts heroic configEntries desktop
        manual, p.2.name = p.1 := by
  obtain ⟨hnd, hnr⟩ := wf_merge_games_dict f steam shortcuts heroic
    configEntries desktop manual
  refine ⟨?_, hnr⟩
  have hnames : ((merge_games_dict f steam shortcuts heroic configEntries
      desktop manual).map Prod.snd).map Game.name =
      keysOf (merge_games_dict f steam shortcuts heroic configEntries
        desktop manual) := by
    rw [List.map_map]
    exact List.map_congr_left (fun p hp => hnr p hp)
  cases fe
  · rw [show merge_games f false oracle steam shortcuts heroic configEntries
        desktop manual = (merge_games_dict f steam shortcuts heroic
        configEntries desktop manual).map Prod.snd from rfl, hnames]
    exact hnd
  · rw [show merge_games f true oracle steam shortcuts heroic configEntries
        desktop manual = fetchFrom oracle 0 ((merge_games_dict f steam
        shortcuts heroic configEntries desktop manual).map Prod.snd)
        from rfl, names_fetchFrom, hnames]
    exact hnd

/-- Claim C9: `convert_appid_to_long` equals
`((appid mod 2^32) <<< 32) ||| 0x02000000` on every 32-bit signed
appid, and for a non-negative appid the pack/hexlify/byte-reverse
computation reduces to `(appid <<< 32) ||| 0x02000000`. -/
theorem convert_appid_to_long_spec (a : Int)
    (h1 : -(2 : Int) ^ 31 ≤ a) (h2 : a < (2 : Int) ^ 31) :
    convert_appid_to_long a =
      (((a % (2 : Int) ^ 32).toNat) <<< 32) ||| 0x02000000 ∧
    (0 ≤ a → convert_appid_to_long a =
      (a.toNat <<< 32) ||| 0x02000000) := by
  constructor
  · simp only [convert_appid_to_long, bytes_int32_roundtrip]
  · intro h0
    have hmod : a % (2 : Int) ^ 32 = a := Int.emod_eq_of_lt h0 (by omega)
    simp only [convert_appid_to_long, bytes_int32_roundtrip, hmod]

/-- Claim C9, witness: the conversion at appid 620. -/
theorem convert_appid_to_long_spec_witness :
    convert_appid_to_long 620 =
      ((((620 : Int) % (2 : Int) ^ 32).toNat) <<< 32) ||| 0x02000000 ∧
    convert_appid_to_long 620 =
      (((620 : Int)).toNat <<< 32) ||| 0x02000000 := by
  have h := convert_appid_to_long_spec 620 (by decide) (by decide)
  exact ⟨h.1, h.2 (by decide)⟩

/-- Claim C10: `set(k, v)` then `get(k)` within the TTL returns exactly
`v`, including `v = ""`, and a never-stored key returns `None` — the
stored empty string is distinguishable from the absent result at the
cache API level. -/
theorem imageCache_set_get_roundtrip (c : ImageCache) (t now : Int)
    (k v : String) (h : now - t ≤ c.ttl) :
    ((c.set t k v).get now k).1 = some v ∧
    ∀ q, lookupA q c.cache = none →
      (c.get now q).1 = none ∧
      ((c.set t k "").get now k).1 ≠ (c.get now q).1 := by
  have hset : ∀ w, ((c.set t k w).get now k).1 = some w := by
    intro w
    simp [ImageCache.set, ImageCache.get, lookupA_assignA_self,
      not_lt.mpr h]
  refine ⟨hset v, ?_⟩
  intro q hq
  have hg : (c.get now q).1 = none := by
    simp [ImageCache.get, hq]
  refine ⟨hg, ?_⟩
  rw [hset "", hg]
  simp

/-- Claim C10, witness: storing the empty string at time 0 and reading
at time 10 (TTL 60) yields `some ""`, while a never-stored key yields
`none`. -/
theorem imageCache_set_get_roundtrip_witness :
    (((⟨60, []⟩ : ImageCache).set 0 "k" "").get 10 "k").1 = some "" ∧
    ((⟨60, []⟩ : ImageCache).get 10 "z").1 = none := by
  have h := imageCache_set_get_roundtrip ⟨60, []⟩ 0 10 "k" "" (by decide)
  exact ⟨h.1, (h.2 "z" rfl).1⟩

end GameLauncher
